import Mathlib

/-
  Shallow embedding of the tic-tac-toe board engine (src/tictactoe.py).
  A board is the nested row list exactly as in the source: a list of rows,
  each row a list of integer cell codes (0 = empty, 1 = first mark X,
  2 = second mark O).  Encoded strings are modelled as lists of characters;
  the empty list models the empty-string sentinel the source uses for
  encoding failures.  Fallible constructors return Option, where none
  models a raised exception (assertion failure or int conversion error).
-/

/-- Board cell grid as in the source: a list of rows of integer codes. -/
abbrev BoardT := List (List Int)

/-- Static helper increment from the source. -/
def increment (x : Int) : Int := x + 1

/-- Static helper decrement from the source. -/
def decrement (x : Int) : Int := x - 1

/-- Static helper add from the source. -/
def add (x y : Int) : Int := x + y

/-- Static helper multiply from the source. -/
def multiply (x y : Int) : Int := x * y

/-- Chunk a flat list into rows of three, as prepare_board_input_from_list does. -/
def prepare_board_input_from_list : List Int → List (List Int)
  | [] => []
  | [a] => [[a]]
  | [a, b] => [[a, b]]
  | a :: b :: c :: rest => [a, b, c] :: prepare_board_input_from_list rest

/-- Numeric value of a digit character, modelling the int conversion on one char. -/
def digit_val (c : Char) : Int := (c.toNat : Int) - 48

/-- Digit character of a small integer, modelling str on the codes 1, 2, 3 that
the source can actually produce after its validity check.  Other inputs never
occur; the fallback branch is unreachable. -/
def int_to_digit_char (v : Int) : Char :=
  if v = 1 then '1' else if v = 2 then '2' else if v = 3 then '3' else '?'

/-- Convert every character of a string to an integer, modelling the list
comprehension with int applied per character; a non-digit character raises,
modelled by none. -/
def string_to_int_list (s : List Char) : Option (List Int) :=
  if s.all Char.isDigit then some (s.map digit_val) else none

/-- decode_board_string from the source: per-character int conversion, then
decrement every value, then chunk into rows of three. -/
def decode_board_string (s : List Char) : Option BoardT :=
  (string_to_int_list s).map
    (fun int_list => prepare_board_input_from_list (int_list.map decrement))

/-- encode_board_object_list from the source: if any element is outside
the set of codes 0, 1, 2 then the empty-string sentinel is returned,
otherwise every element is incremented and rendered as a digit character. -/
def encode_board_object_list (board_as_list : List Int) : List Char :=
  if board_as_list.all (fun v => v == 0 || v == 1 || v == 2) then
    (board_as_list.map increment).map int_to_digit_char
  else []

/-- The reset board of the source constructor: all cells empty. -/
def empty_board : BoardT := [[0, 0, 0], [0, 0, 0], [0, 0, 0]]

/-- is_cell_valid from the source: pure coordinate range check. -/
def is_cell_valid (row col : Int) : Bool :=
  decide (row < 3 ∧ 0 ≤ row) && decide (col < 3 ∧ 0 ≤ col)

/-- is_board_valid from the source: row count, column counts, and the loop
that is commented as a cell value check but only rechecks loop coordinates. -/
def is_board_valid (b : BoardT) : Bool :=
  (b.length == 3) && b.all (fun row => row.length == 3) &&
    (List.range 3).all (fun i => (List.range 3).all (fun j =>
      is_cell_valid (i : Int) (j : Int)))

/-- Board construction from an encoded string.  The empty string resets to the
all-empty board; otherwise the string is decoded and the validity assertion is
checked, a failure of either modelled by none. -/
def board_init (s : List Char) : Option BoardT :=
  if s.isEmpty then some empty_board
  else
    match decode_board_string s with
    | none => none
    | some b => if is_board_valid b then some b else none

/-- get_value from the source.  The source asserts the coordinate range before
indexing, so the default values of the total getD translation are never
observed by callers that respect the assertion. -/
def get_value (b : BoardT) (row col : Int) : Int :=
  (b.getD row.toNat []).getD col.toNat 0

/-- is_cell_empty from the source: the cell holds the empty code 0. -/
def is_cell_empty (b : BoardT) (row col : Int) : Bool :=
  get_value b row col == 0

/-- is_set_value_valid from the source: coordinates in range, value a player
mark, and target cell empty. -/
def is_set_value_valid (b : BoardT) (row col value : Int) : Bool :=
  is_cell_valid row col && (value == 1 || value == 2) && is_cell_empty b row col

/-- set_value from the source: unconditional single-cell update, translated
to a functional list update. -/
def set_value (b : BoardT) (row col value : Int) : BoardT :=
  b.set row.toNat ((b.getD row.toNat []).set col.toNat value)

/-- safe_set_value from the source: validate, then either update and report
true or leave the board unchanged and report false. -/
def safe_set_value (b : BoardT) (row col value : Int) : BoardT × Bool :=
  if is_set_value_valid b row col value then (set_value b row col value, true)
  else (b, false)

/-- The eight compass directions accepted by assert_direction_valid. -/
inductive Dir where
  | N | S | E | W | NE | SE | SW | NW
deriving DecidableEq

/-- get_cell_index_adjacent from the source, including the source delta table
in which the W branch applies the same delta as the N branch (row - 1, col). -/
def get_cell_index_adjacent (origin_row origin_col : Int) (d : Dir) :
    Option (Int × Int) :=
  let step : Int × Int :=
    match d with
    | Dir.N => (origin_row - 1, origin_col)
    | Dir.S => (origin_row + 1, origin_col)
    | Dir.E => (origin_row, origin_col + 1)
    | Dir.W => (origin_row - 1, origin_col)
    | Dir.NE => (origin_row - 1, origin_col + 1)
    | Dir.SE => (origin_row + 1, origin_col + 1)
    | Dir.SW => (origin_row + 1, origin_col - 1)
    | Dir.NW => (origin_row - 1, origin_col - 1)
  if is_cell_valid step.1 step.2 then some step else none

/-- is_three_match_in_line from the source: walk two adjacency steps from the
origin and compare the three cell values; none models the crash that unpacking
an invalid adjacency result would raise. -/
def is_three_match_in_line (b : BoardT) (origin_row origin_col : Int) (d : Dir) :
    Option (Bool × Int) :=
  let first_value := get_value b origin_row origin_col
  if first_value = 0 then some (false, -1)
  else
    match get_cell_index_adjacent origin_row origin_col d with
    | none => none
    | some (r2, c2) =>
      let second_value := get_value b r2 c2
      if first_value ≠ second_value then some (false, -1)
      else
        match get_cell_index_adjacent r2 c2 d with
        | none => none
        | some (r3, c3) =>
          let third_value := get_value b r3 c3
          if second_value ≠ third_value then some (false, -1)
          else some (true, first_value)

/-- The fixed line scan list of the source: three rows eastward, three columns
southward, the main diagonal, then the anti-diagonal. -/
def line_list : List (Int × Int × Dir) :=
  [(0, 0, Dir.E), (1, 0, Dir.E), (2, 0, Dir.E),
   (0, 0, Dir.S), (0, 1, Dir.S), (0, 2, Dir.S),
   (0, 0, Dir.SE), (2, 0, Dir.NE)]

/-- get_all_three_matches from the source: collect, in scan order, every line
whose three cells match. -/
def get_all_three_matches (b : BoardT) : List (Int × Int × Dir × Int) :=
  line_list.foldr
    (fun rcd acc =>
      match is_three_match_in_line b rcd.1 rcd.2.1 rcd.2.2 with
      | some (true, v) => (rcd.1, rcd.2.1, rcd.2.2, v) :: acc
      | _ => acc) []

/-- three_match_exists from the source: report the first collected match. -/
def three_match_exists (b : BoardT) : Bool × Int :=
  match get_all_three_matches b with
  | (_, _, _, v) :: _ => (true, v)
  | [] => (false, -1)

/-- count_nonempty_cells from the source: count the non-empty cells visited by
the row-major loop. -/
def count_nonempty_cells (b : BoardT) : Nat :=
  ((List.range 3).flatMap (fun i => (List.range 3).map (fun j =>
    get_value b (i : Int) (j : Int)))).countP (fun v => !(v == 0))

/-- to_list from the source: the row-major flat list of cell values. -/
def to_list (b : BoardT) : List Int :=
  (List.range 3).flatMap (fun i => (List.range 3).map (fun j =>
    get_value b (i : Int) (j : Int)))

/-- encode from the source. -/
def encode (b : BoardT) : List Char :=
  encode_board_object_list (to_list b)

/-- apply_reduce from the source; reduce over the empty list raises, but a
board always contributes nine cells so the zero fallback is unreachable. -/
def apply_reduce (b : BoardT) (f : Int → Int → Int) : Int :=
  match to_list b with
  | [] => 0
  | x :: xs => xs.foldl f x

/-- is_full from the source: the product of all cells is nonzero. -/
def is_full (b : BoardT) : Bool :=
  !(apply_reduce b multiply == 0)

/-- which_value_is_next from the source: count marks of each player; the
second player moves only when strictly behind on the count. -/
def which_value_is_next (b : BoardT) : Int :=
  let count_X := (to_list b).countP (fun v => v == 1)
  let count_O := (to_list b).countP (fun v => v == 2)
  if count_O < count_X then 2 else 1

/-- next_available_states from the source: for each cell in row-major order,
re-decode a private copy of the board from its encoding, and if the cell is
empty place the next value there via safe_set_value and emit the copy. -/
def next_available_states (b : BoardT) : List BoardT :=
  let next_value := which_value_is_next b
  let self_string := encode b
  (List.range 3).flatMap (fun i => (List.range 3).flatMap (fun j =>
    let new_board := (board_init self_string).getD empty_board
    if is_cell_empty new_board (i : Int) (j : Int) then
      [(safe_set_value new_board (i : Int) (j : Int) next_value).1]
    else []))

/-- get_first_observed_move from the source: the first non-empty cell in
row-major order together with its value; none when the board is empty. -/
def get_first_observed_move (b : BoardT) : Option (Int × Int × Int) :=
  ((List.range 3).flatMap (fun i => (List.range 3).flatMap (fun j =>
    if is_cell_empty b (i : Int) (j : Int) then []
    else [((i : Int), (j : Int), get_value b (i : Int) (j : Int))]))).head?

/-- diff from the source: per-cell difference of the two encoded digit
strings, re-encoded; the empty sentinel yields none, otherwise the difference
board is rebuilt through the Board constructor. -/
def diff (s o : BoardT) : Option BoardT :=
  let self_encoded := (encode s).map digit_val
  let other_encoded := (encode o).map digit_val
  let result := List.zipWith (fun a b => a - b) other_encoded self_encoded
  let diff_board_input := encode_board_object_list result
  if diff_board_input.isEmpty then none
  else board_init diff_board_input

/-- is_valid_transition from the source: the diff is defined and has exactly
one non-empty cell. -/
def is_valid_transition (s o : BoardT) : Bool :=
  match diff s o with
  | none => false
  | some d => count_nonempty_cells d == 1

/-- extract_move_transition from the source: the sentinel triple on an invalid
transition, otherwise the first observed move of the diff board.  Under a
valid transition the diff is defined and has one non-empty cell, so the
defensive defaults are unreachable. -/
def extract_move_transition (s o : BoardT) : Int × Int × Int :=
  if is_valid_transition s o then
    match diff s o with
    | some d => (get_first_observed_move d).getD (-1, -1, -1)
    | none => (-1, -1, -1)
  else (-1, -1, -1)

/-- get_game_over_conditions from the source: a three-match ends the game with
its value, a full board ends it with the sentinel -1. -/
def get_game_over_conditions (b : BoardT) : Bool × Int :=
  let tm := three_match_exists b
  if tm.1 then (true, tm.2)
  else if is_full b then (true, -1) else (false, -1)

/-- make_value_judgment from the Player class: 0 for a non-terminal state, 1
when the reported winning piece is the own value, otherwise -1. -/
def make_value_judgment (value : Int) (board_state : BoardT) : Int :=
  let go := get_game_over_conditions board_state
  if !go.1 then 0
  else if go.2 == value then 1 else -1

/-- Maximum of a list, modelling the builtin max, which raises on an empty
list (none). -/
def list_max (l : List Int) : Option Int :=
  match l with
  | [] => none
  | x :: xs => some (xs.foldl max x)

/-- select_move_naive from the Player class: a uniformly random successor.
The random draw is modelled by an explicit outcome index reduced modulo the
number of candidates; sampling from an empty list raises (none). -/
def select_move_naive (b : BoardT) (rand : Nat) : Option (Int × Int × Int) :=
  let next_states := next_available_states b
  match next_states.get? (rand % next_states.length) with
  | some random_next_state => some (extract_move_transition b random_next_state)
  | none => none

/-- select_move from the Player class: judge every successor; when the maximal
judgment exceeds the winning threshold, play the first successor achieving it,
otherwise fall back to the naive random choice.  The source compares the
stringified judgments, whose lexicographic maximum coincides with the numeric
maximum on the value set -1, 0, 1. -/
def select_move (value : Int) (b : BoardT) (rand : Nat) :
    Option (Int × Int × Int) :=
  let next_states := next_available_states b
  let value_list := next_states.map (fun st => make_value_judgment value st)
  match list_max value_list with
  | none => none
  | some value_max =>
    if 0 < value_max then
      match next_states.get? (value_list.indexOf value_max) with
      | some value_max_state => some (extract_move_transition b value_max_state)
      | none => none
    else select_move_naive b rand

/-- Modelled from the spec: the one-ply score of section 4.3, which the Player
code does not implement (its make_value_judgment omits the anticipatory
opponent-reply check).  A terminal state scores 1 exactly when its winner is
the owner and 0 otherwise; a non-terminal state scores -1 when some immediate
reply has a winner other than the owner, and 0 otherwise. -/
def specScore (owner : Int) (st : BoardT) : Int :=
  if (is_full st || (three_match_exists st).1) then
    (if (three_match_exists st).1 && ((three_match_exists st).2 == owner)
     then 1 else 0)
  else if (next_available_states st).any (fun r =>
      (three_match_exists r).1 && !((three_match_exists r).2 == owner))
    then -1 else 0

/-- Modelled from the spec: the eight winning lines as coordinate triples in
the order stated by the specification: rows top to bottom, columns left to
right, then the two diagonals. -/
def claim_lines : List ((Int × Int) × (Int × Int) × (Int × Int)) :=
  [((0, 0), (0, 1), (0, 2)), ((1, 0), (1, 1), (1, 2)), ((2, 0), (2, 1), (2, 2)),
   ((0, 0), (1, 0), (2, 0)), ((0, 1), (1, 1), (2, 1)), ((0, 2), (1, 2), (2, 2)),
   ((0, 0), (1, 1), (2, 2)), ((2, 0), (1, 1), (0, 2))]

/-- Modelled from the spec: a line wins when its three cells are non-empty and
identical. -/
def line_wins (b : BoardT) (t : (Int × Int) × (Int × Int) × (Int × Int)) : Bool :=
  !(get_value b t.1.1 t.1.2 == 0) &&
    (get_value b t.1.1 t.1.2 == get_value b t.2.1.1 t.2.1.2) &&
    (get_value b t.2.1.1 t.2.1.2 == get_value b t.2.2.1 t.2.2.2)

/-- A structurally well-formed board: three rows of three cells, every cell
one of the codes 0, 1, 2.  This is the invariant of the data model. -/
def Valid (b : BoardT) : Prop :=
  b.length = 3 ∧ ∀ row ∈ b, row.length = 3 ∧ ∀ v ∈ row, v = 0 ∨ v = 1 ∨ v = 2

instance (b : BoardT) : Decidable (Valid b) := by
  unfold Valid; infer_instance

/-
  Helper lemmas.
-/

theorem mem3_beq {v : Int} (h : v = 0 ∨ v = 1 ∨ v = 2) :
    (v == 0 || v == 1 || v == 2) = true := by
  rcases h with rfl | rfl | rfl <;> rfl

theorem all3_of_mem3 {l : List Int} (h : ∀ v ∈ l, v = 0 ∨ v = 1 ∨ v = 2) :
    l.all (fun v => v == 0 || v == 1 || v == 2) = true := by
  rw [List.all_eq_true]
  intro v hv
  exact mem3_beq (h v hv)

theorem mem3_of_all3 {l : List Int}
    (h : l.all (fun v => v == 0 || v == 1 || v == 2) = true) :
    ∀ v ∈ l, v = 0 ∨ v = 1 ∨ v = 2 := by
  rw [List.all_eq_true] at h
  intro v hv
  have := h v hv
  simp only [Bool.or_eq_true, beq_iff_eq] at this
  tauto

theorem enc3 {l : List Int} (h : ∀ v ∈ l, v = 0 ∨ v = 1 ∨ v = 2) :
    encode_board_object_list l = l.map (fun v => int_to_digit_char (v + 1)) := by
  unfold encode_board_object_list
  rw [if_pos (all3_of_mem3 h), List.map_map]
  rfl

theorem dec3 {l : List Int} (h : ∀ v ∈ l, v = 0 ∨ v = 1 ∨ v = 2) :
    string_to_int_list (l.map (fun v => int_to_digit_char (v + 1))) =
      some (l.map (fun v => v + 1)) := by
  unfold string_to_int_list
  rw [if_pos, List.map_map]
  · apply congrArg
    apply List.map_congr_left
    intro v hv
    rcases h v hv with rfl | rfl | rfl <;> rfl
  · rw [List.all_eq_true]
    intro c hc
    rw [List.mem_map] at hc
    obtain ⟨v, hv, rfl⟩ := hc
    rcases h v hv with rfl | rfl | rfl <;> rfl

theorem enc_digits {l : List Int} (h : ∀ v ∈ l, v = 0 ∨ v = 1 ∨ v = 2) :
    (encode_board_object_list l).map digit_val = l.map (fun v => v + 1) := by
  rw [enc3 h, List.map_map]
  apply List.map_congr_left
  intro v hv
  rcases h v hv with rfl | rfl | rfl <;> rfl

theorem list9_destruct (l : List Int) (h : l.length = 9) :
    ∃ a0 a1 a2 a3 a4 a5 a6 a7 a8 : Int,
      l = [a0, a1, a2, a3, a4, a5, a6, a7, a8] := by
  obtain ⟨a0, l, rfl⟩ := List.exists_of_length_succ l h
  simp only [List.length_cons, Nat.succ_inj] at h
  obtain ⟨a1, l, rfl⟩ := List.exists_of_length_succ l h
  simp only [List.length_cons, Nat.succ_inj] at h
  obtain ⟨a2, l, rfl⟩ := List.exists_of_length_succ l h
  simp only [List.length_cons, Nat.succ_inj] at h
  obtain ⟨a3, l, rfl⟩ := List.exists_of_length_succ l h
  simp only [List.length_cons, Nat.succ_inj] at h
  obtain ⟨a4, l, rfl⟩ := List.exists_of_length_succ l h
  simp only [List.length_cons, Nat.succ_inj] at h
  obtain ⟨a5, l, rfl⟩ := List.exists_of_length_succ l h
  simp only [List.length_cons, Nat.succ_inj] at h
  obtain ⟨a6, l, rfl⟩ := List.exists_of_length_succ l h
  simp only [List.length_cons, Nat.succ_inj] at h
  obtain ⟨a7, l, rfl⟩ := List.exists_of_length_succ l h
  simp only [List.length_cons, Nat.succ_inj] at h
  obtain ⟨a8, l, rfl⟩ := List.exists_of_length_succ l h
  simp only [List.length_cons, Nat.succ_inj] at h
  rw [List.length_eq_zero] at h
  subst h
  exact ⟨a0, a1, a2, a3, a4, a5, a6, a7, a8, rfl⟩

theorem valid_destruct (b : BoardT) (h : Valid b) :
    ∃ a0 a1 a2 a3 a4 a5 a6 a7 a8 : Int,
      b = [[a0, a1, a2], [a3, a4, a5], [a6, a7, a8]] ∧
      ∀ v ∈ [a0, a1, a2, a3, a4, a5, a6, a7, a8], v = 0 ∨ v = 1 ∨ v = 2 := by
  obtain ⟨hlen, hrows⟩ := h
  obtain ⟨r0, b, rfl⟩ := List.exists_of_length_succ b hlen
  simp only [List.length_cons, Nat.succ_inj] at hlen
  obtain ⟨r1, b, rfl⟩ := List.exists_of_length_succ b hlen
  simp only [List.length_cons, Nat.succ_inj] at hlen
  obtain ⟨r2, b, rfl⟩ := List.exists_of_length_succ b hlen
  simp only [List.length_cons, Nat.succ_inj] at hlen
  rw [List.length_eq_zero] at hlen
  subst hlen
  have h0 := hrows r0 (by simp)
  have h1 := hrows r1 (by simp)
  have h2 := hrows r2 (by simp)
  obtain ⟨a0, r0, rfl⟩ := List.exists_of_length_succ r0 h0.1
  have h0l := h0.1; simp only [List.length_cons, Nat.succ_inj] at h0l
  obtain ⟨a1, r0, rfl⟩ := List.exists_of_length_succ r0 h0l
  simp only [List.length_cons, Nat.succ_inj] at h0l
  obtain ⟨a2, r0, rfl⟩ := List.exists_of_length_succ r0 h0l
  simp only [List.length_cons, Nat.succ_inj] at h0l
  rw [List.length_eq_zero] at h0l
  subst h0l
  have h1l := h1.1
  obtain ⟨a3, r1, rfl⟩ := List.exists_of_length_succ r1 h1l
  simp only [List.length_cons, Nat.succ_inj] at h1l
  obtain ⟨a4, r1, rfl⟩ := List.exists_of_length_succ r1 h1l
  simp only [List.length_cons, Nat.succ_inj] at h1l
  obtain ⟨a5, r1, rfl⟩ := List.exists_of_length_succ r1 h1l
  simp only [List.length_cons, Nat.succ_inj] at h1l
  rw [List.length_eq_zero] at h1l
  subst h1l
  have h2l := h2.1
  obtain ⟨a6, r2, rfl⟩ := List.exists_of_length_succ r2 h2l
  simp only [List.length_cons, Nat.succ_inj] at h2l
  obtain ⟨a7, r2, rfl⟩ := List.exists_of_length_succ r2 h2l
  simp only [List.length_cons, Nat.succ_inj] at h2l
  obtain ⟨a8, r2, rfl⟩ := List.exists_of_length_succ r2 h2l
  simp only [List.length_cons, Nat.succ_inj] at h2l
  rw [List.length_eq_zero] at h2l
  subst h2l
  refine ⟨a0, a1, a2, a3, a4, a5, a6, a7, a8, rfl, ?_⟩
  intro v hv
  simp only [List.mem_cons, List.not_mem_nil, or_false] at hv
  rcases hv with rfl | rfl | rfl | rfl | rfl | rfl | rfl | rfl | rfl
  · exact h0.2 v (by simp)
  · exact h0.2 v (by simp)
  · exact h0.2 v (by simp)
  · exact h1.2 v (by simp)
  · exact h1.2 v (by simp)
  · exact h1.2 v (by simp)
  · exact h2.2 v (by simp)
  · exact h2.2 v (by simp)
  · exact h2.2 v (by simp)

theorem to_list_chunk9 (l : List Int) (h : l.length = 9) :
    to_list (prepare_board_input_from_list l) = l := by
  obtain ⟨a0, a1, a2, a3, a4, a5, a6, a7, a8, rfl⟩ := list9_destruct l h
  rfl

theorem valid_to_list_mem3 {b : BoardT} (hb : Valid b) :
    ∀ v ∈ to_list b, v = 0 ∨ v = 1 ∨ v = 2 := by
  obtain ⟨a0, a1, a2, a3, a4, a5, a6, a7, a8, rfl, hmem⟩ := valid_destruct b hb
  exact hmem

theorem to_list_length {b : BoardT} (hb : Valid b) : (to_list b).length = 9 := by
  obtain ⟨a0, a1, a2, a3, a4, a5, a6, a7, a8, rfl, hmem⟩ := valid_destruct b hb
  rfl

theorem board_init_encode (b : BoardT) (hb : Valid b) :
    board_init (encode b) = some b := by
  obtain ⟨a0, a1, a2, a3, a4, a5, a6, a7, a8, hb_eq, hmem⟩ := valid_destruct b hb
  subst hb_eq
  have henc : encode [[a0, a1, a2], [a3, a4, a5], [a6, a7, a8]] =
      ([a0, a1, a2, a3, a4, a5, a6, a7, a8]).map (fun v => int_to_digit_char (v + 1)) := by
    unfold encode
    exact enc3 hmem
  rw [board_init, henc]
  rw [if_neg (by simp)]
  rw [decode_board_string, dec3 hmem]
  simp only [Option.map_some']
  rw [List.map_map]
  have hmapid : ([a0, a1, a2, a3, a4, a5, a6, a7, a8]).map (decrement ∘ fun v => v + 1) =
      [a0, a1, a2, a3, a4, a5, a6, a7, a8] := by
    apply List.map_congr_left
    intro v _
    simp [decrement]
  rw [hmapid]
  rfl

theorem zipWith_sub_shift (A B : List Int) :
    List.zipWith (fun a b => a - b) (A.map (fun v => v + 1)) (B.map (fun v => v + 1)) =
      List.zipWith (fun a b => a - b) A B := by
  induction A generalizing B with
  | nil => simp
  | cons a A ih =>
    cases B with
    | nil => simp
    | cons b B =>
      simp only [List.map_cons, List.zipWith_cons_cons, ih]
      congr 1
      ring

theorem zipWith_sub_self (l : List Int) :
    List.zipWith (fun a b => a - b) l l = l.map (fun _ => (0 : Int)) := by
  induction l with
  | nil => rfl
  | cons x xs ih => simp [ih]

theorem zipWith_sub_set (l : List Int) (k : Nat) (m : Int)
    (hk : l.get? k = some 0) :
    List.zipWith (fun a b => a - b) (l.set k m) l =
      (l.map (fun _ => (0 : Int))).set k m := by
  induction l generalizing k with
  | nil => rfl
  | cons x xs ih =>
    cases k with
    | zero =>
      simp only [List.get?_cons_zero, Option.some_inj] at hk
      subst hk
      simp [zipWith_sub_self]
    | succ k =>
      simp only [List.get?_cons_succ] at hk
      simp [ih k hk]

theorem diff_formula (s o : BoardT) (hs : Valid s) (ho : Valid o) :
    diff s o =
      (if (List.zipWith (fun a b => a - b) (to_list o) (to_list s)).all
          (fun v => v == 0 || v == 1 || v == 2) then
        some (prepare_board_input_from_list
          (List.zipWith (fun a b => a - b) (to_list o) (to_list s)))
      else none) := by
  have hsm := valid_to_list_mem3 hs
  have hom := valid_to_list_mem3 ho
  simp only [diff, encode]
  rw [enc_digits hsm, enc_digits hom, zipWith_sub_shift]
  set z := List.zipWith (fun a b => a - b) (to_list o) (to_list s) with hz
  have hzlen : z.length = 9 := by
    rw [hz, List.length_zipWith, to_list_length hs, to_list_length ho]
    rfl
  by_cases hall : z.all (fun v => v == 0 || v == 1 || v == 2) = true
  · rw [if_pos hall]
    have hzm := mem3_of_all3 hall
    rw [enc3 hzm]
    obtain ⟨d0, d1, d2, d3, d4, d5, d6, d7, d8, hzeq⟩ := list9_destruct z hzlen
    rw [hzeq]
    rw [if_neg (by simp)]
    rw [board_init, if_neg (by simp)]
    rw [decode_board_string, dec3 (hzeq ▸ hzm)]
    simp only [Option.map_some']
    rw [List.map_map]
    have hmapid : ([d0, d1, d2, d3, d4, d5, d6, d7, d8]).map (decrement ∘ fun v => v + 1) =
        [d0, d1, d2, d3, d4, d5, d6, d7, d8] := by
      apply List.map_congr_left
      intro v _
      simp [decrement]
    rw [hmapid]
    rfl
  · rw [if_neg hall]
    rw [encode_board_object_list, if_neg hall]
    rfl

theorem map_zero_eq_replicate (l : List Int) :
    l.map (fun _ => (0 : Int)) = List.replicate l.length 0 := by
  induction l with
  | nil => rfl
  | cons x xs ih => simp [List.replicate_succ, ih]

theorem extract_set_flat (b t : BoardT) (k : Nat) (m : Int)
    (hb : Valid b) (ht : Valid t)
    (hz : to_list t = (to_list b).set k m)
    (hk : (to_list b).get? k = some 0)
    (hm : m = 1 ∨ m = 2) (hk9 : k < 9) :
    extract_move_transition b t =
      (((k / 3 : Nat) : Int), ((k % 3 : Nat) : Int), m) := by
  have hd := diff_formula b t hb ht
  rw [hz, zipWith_sub_set _ _ _ hk, map_zero_eq_replicate, to_list_length hb] at hd
  rcases hm with rfl | rfl <;> interval_cases k <;>
    rw [if_pos (by decide)] at hd <;>
    simp only [extract_move_transition, is_valid_transition, hd] <;> decide

theorem valid_set_value {b : BoardT} (hb : Valid b) {m : Int} (hm : m = 1 ∨ m = 2)
    {r c : Int} (hr : 0 ≤ r ∧ r < 3) (hc : 0 ≤ c ∧ c < 3) :
    Valid (set_value b r c m) := by
  obtain ⟨hlen, hrows⟩ := hb
  refine ⟨by rw [set_value, List.length_set]; exact hlen, ?_⟩
  intro row hrow
  rw [set_value] at hrow
  rcases List.mem_or_eq_of_mem_set hrow with h | rfl
  · exact hrows row h
  · have hrn : r.toNat < b.length := by omega
    have hbase : b.getD r.toNat [] ∈ b := by
      rw [List.getD_eq_getElem _ _ hrn]
      exact List.getElem_mem hrn
    obtain ⟨hblen, hbvals⟩ := hrows _ hbase
    refine ⟨by rw [List.length_set]; exact hblen, ?_⟩
    intro v hv
    rcases List.mem_or_eq_of_mem_set hv with h2 | rfl
    · exact hbvals v h2
    · tauto

theorem to_list_set_value (a0 a1 a2 a3 a4 a5 a6 a7 a8 m : Int) (r c : Int)
    (hr : 0 ≤ r ∧ r < 3) (hc : 0 ≤ c ∧ c < 3) :
    to_list (set_value [[a0, a1, a2], [a3, a4, a5], [a6, a7, a8]] r c m) =
      ([a0, a1, a2, a3, a4, a5, a6, a7, a8]).set (r.toNat * 3 + c.toNat) m := by
  have hr3 : r = 0 ∨ r = 1 ∨ r = 2 := by omega
  have hc3 : c = 0 ∨ c = 1 ∨ c = 2 := by omega
  rcases hr3 with rfl | rfl | rfl <;> rcases hc3 with rfl | rfl | rfl <;> rfl

theorem get9_explicit (a0 a1 a2 a3 a4 a5 a6 a7 a8 : Int) (r c : Int)
    (hr : 0 ≤ r ∧ r < 3) (hc : 0 ≤ c ∧ c < 3) :
    ([a0, a1, a2, a3, a4, a5, a6, a7, a8]).get? (r.toNat * 3 + c.toNat) =
      some (get_value [[a0, a1, a2], [a3, a4, a5], [a6, a7, a8]] r c) := by
  have hr3 : r = 0 ∨ r = 1 ∨ r = 2 := by omega
  have hc3 : c = 0 ∨ c = 1 ∨ c = 2 := by omega
  rcases hr3 with rfl | rfl | rfl <;> rcases hc3 with rfl | rfl | rfl <;> rfl

/-- C7: extract_move_transition is the inverse of a legal single-cell set.
For every valid board, in-range coordinates, player mark, and empty target
cell, extracting the transition to the board produced by safe_set_value
recovers exactly the row, the column and the mark. -/
theorem c7_extract_move_inverse (b : BoardT) (r c m : Int) (hb : Valid b)
    (hr : 0 ≤ r ∧ r < 3) (hc : 0 ≤ c ∧ c < 3) (hm : m = 1 ∨ m = 2)
    (he : is_cell_empty b r c = true) :
    extract_move_transition b ((safe_set_value b r c m).1) = (r, c, m) := by
  obtain ⟨a0, a1, a2, a3, a4, a5, a6, a7, a8, hbeq, hmem⟩ := valid_destruct b hb
  subst hbeq
  have ha : get_value [[a0, a1, a2], [a3, a4, a5], [a6, a7, a8]] r c = 0 :=
    beq_iff_eq.mp he
  have hmb : (m == 1 || m == 2) = true := by rcases hm with rfl | rfl <;> rfl
  have hcellv : is_cell_valid r c = true := by
    simp only [is_cell_valid, Bool.and_eq_true, decide_eq_true_eq]
    omega
  have hsafe : (safe_set_value [[a0, a1, a2], [a3, a4, a5], [a6, a7, a8]] r c m).1 =
      set_value [[a0, a1, a2], [a3, a4, a5], [a6, a7, a8]] r c m := by
    rw [safe_set_value, if_pos]
    rw [is_set_value_valid, hcellv, hmb, he]
    rfl
  rw [hsafe]
  have hvb : Valid [[a0, a1, a2], [a3, a4, a5], [a6, a7, a8]] := ⟨rfl, by
    intro row hrow
    simp only [List.mem_cons, List.not_mem_nil, or_false] at hrow
    rcases hrow with rfl | rfl | rfl <;>
      exact ⟨rfl, by intro v hv; apply hmem; simp only [List.mem_cons] at hv ⊢; tauto⟩⟩
  have hvt := valid_set_value hvb hm hr hc
  have hk : ([a0, a1, a2, a3, a4, a5, a6, a7, a8]).get? (r.toNat * 3 + c.toNat) =
      some 0 := by
    rw [get9_explicit a0 a1 a2 a3 a4 a5 a6 a7 a8 r c hr hc, ha]
  have hres := extract_set_flat _ _ (r.toNat * 3 + c.toNat) m hvb hvt
    (to_list_set_value a0 a1 a2 a3 a4 a5 a6 a7 a8 m r c hr hc) hk hm (by omega)
  rw [hres]
  have h1 : (((r.toNat * 3 + c.toNat) / 3 : Nat) : Int) = r := by omega
  have h2 : (((r.toNat * 3 + c.toNat) % 3 : Nat) : Int) = c := by omega
  rw [h1, h2]

/-- Witness for C7 at a concrete board, coordinate pair and mark. -/
theorem c7_extract_move_inverse_witness :
    extract_move_transition [[1, 0, 0], [0, 2, 0], [0, 0, 0]]
      ((safe_set_value [[1, 0, 0], [0, 2, 0], [0, 0, 0]] 2 1 1).1) = (2, 1, 1) :=
  c7_extract_move_inverse [[1, 0, 0], [0, 2, 0], [0, 0, 0]] 2 1 1 (by decide)
    (by omega) (by omega) (Or.inl rfl) (by decide)

theorem zipWith_length9 {s o : BoardT} (hs : Valid s) (ho : Valid o) :
    (List.zipWith (fun a b => a - b) (to_list o) (to_list s)).length = 9 := by
  rw [List.length_zipWith, to_list_length hs, to_list_length ho]
  rfl

/-- C8: encode then decode is the identity on every structurally valid board;
the Board constructor accepts the encoding and rebuilds the same grid. -/
theorem c8_decode_encode_round_trip (b : BoardT) (hb : Valid b) :
    board_init (encode b) = some b :=
  board_init_encode b hb

/-- Witness for C8 at a concrete board. -/
theorem c8_round_trip_witness :
    board_init (encode [[0, 1, 2], [2, 1, 0], [0, 0, 1]]) =
      some [[0, 1, 2], [2, 1, 0], [0, 0, 1]] :=
  c8_decode_encode_round_trip [[0, 1, 2], [2, 1, 0], [0, 0, 1]] (by decide)

/-- C1 counterexample: a cell transition from the first mark to the second
mark (a Mark to Mark transition, which the claim says must force none)
nevertheless produces a defined diff, because the per-cell code difference is
the in-range value 1. -/
theorem c1_counterexample :
    get_value [[1, 0, 0], [0, 0, 0], [0, 0, 0]] 0 0 = 1 ∧
    get_value [[2, 0, 0], [0, 0, 0], [0, 0, 0]] 0 0 = 2 ∧
    diff [[1, 0, 0], [0, 0, 0], [0, 0, 0]] [[2, 0, 0], [0, 0, 0], [0, 0, 0]] =
      some [[1, 0, 0], [0, 0, 0], [0, 0, 0]] := by decide

/-- C1 amended: diff returns none exactly when some per-cell code difference
of other minus self lies outside the encodable value space 0, 1, 2.  A cell
transition therefore invalidates the diff exactly when the code decreases
(Mark to Empty, or second mark to first mark); a transition from the first
mark to the second mark yields the in-range difference 1 and is accepted. -/
theorem c1_amended_diff_none_iff (s o : BoardT) (hs : Valid s) (ho : Valid o) :
    diff s o = none ↔
      ∃ v ∈ List.zipWith (fun a b => a - b) (to_list o) (to_list s),
        ¬(v = 0 ∨ v = 1 ∨ v = 2) := by
  rw [diff_formula s o hs ho]
  by_cases hall : (List.zipWith (fun a b => a - b) (to_list o) (to_list s)).all
      (fun v => v == 0 || v == 1 || v == 2) = true
  · rw [if_pos hall]
    simp only [List.all_eq_true, Bool.or_eq_true, beq_iff_eq] at hall
    constructor
    · intro h
      exact absurd h (Option.some_ne_none _)
    · intro ⟨v, hv, hnv⟩
      exact absurd (hall v hv) (by tauto)
  · rw [if_neg hall]
    rw [List.all_eq_true] at hall
    push_neg at hall
    obtain ⟨v, hv, hnv⟩ := hall
    constructor
    · intro _
      refine ⟨v, hv, ?_⟩
      intro hcon
      apply hnv
      rcases hcon with rfl | rfl | rfl <;> rfl
    · intro _
      rfl

/-- Witness for C1 at a concrete pair of boards with a Mark to Empty cell
transition, whose code difference -1 invalidates the diff. -/
theorem c1_amended_witness :
    diff [[1, 0, 0], [0, 0, 0], [0, 0, 0]] [[0, 0, 0], [0, 0, 0], [0, 0, 0]] =
        none ↔
      ∃ v ∈ List.zipWith (fun a b => a - b)
          (to_list [[0, 0, 0], [0, 0, 0], [0, 0, 0]])
          (to_list [[1, 0, 0], [0, 0, 0], [0, 0, 0]]),
        ¬(v = 0 ∨ v = 1 ∨ v = 2) :=
  c1_amended_diff_none_iff [[1, 0, 0], [0, 0, 0], [0, 0, 0]]
    [[0, 0, 0], [0, 0, 0], [0, 0, 0]] (by decide) (by decide)

/-- C2: the source adjacency table maps direction W from origin (1, 1) to
(0, 1), the same cell as direction N, instead of the geometrically consistent
(1, 0) required by the specification. -/
theorem c2_w_delta_matches_n :
    get_cell_index_adjacent 1 1 Dir.W = some (0, 1) ∧
    get_cell_index_adjacent 1 1 Dir.N = some (0, 1) ∧
    some ((0 : Int), (1 : Int)) ≠ some ((1 : Int), (0 : Int)) := by decide

/-- C5: the Board constructor accepts the nine-digit string 111111110 even
though its last character is outside the alphabet of 1, 2, 3, decoding it to a
grid containing the out-of-range cell value -1; the validity assertion never
inspects cell values. -/
theorem c5_decode_accepts_out_of_alphabet :
    board_init ['1', '1', '1', '1', '1', '1', '1', '1', '0'] =
      some [[0, 0, 0], [0, 0, 0], [0, 0, -1]] := by decide

/-- C4 counterexample: on a full drawn board the judgment of the Player is
-1, not the 0 the claim requires for a terminal state without a winning
line for the owner. -/
theorem c4_counterexample :
    (get_game_over_conditions [[1, 1, 2], [2, 2, 1], [1, 1, 2]]).1 = true ∧
    (three_match_exists [[1, 1, 2], [2, 2, 1], [1, 1, 2]]).1 = false ∧
    make_value_judgment 1 [[1, 1, 2], [2, 2, 1], [1, 1, 2]] = -1 := by decide

/-- C4 amended: on every terminal state the judgment is 1 when the reported
winner is the owner and -1 otherwise, covering both draws and states won by
the opponent. -/
theorem c4_amended_terminal_score (b : BoardT) (owner : Int)
    (ho : owner = 1 ∨ owner = 2)
    (ht : (get_game_over_conditions b).1 = true) :
    make_value_judgment owner b =
      (if (three_match_exists b).1 = true ∧ (three_match_exists b).2 = owner
       then 1 else -1) := by
  rcases htm : three_match_exists b with ⟨tmb, tmv⟩
  cases tmb
  · have hgg : get_game_over_conditions b =
        (if is_full b then (true, -1) else (false, -1)) := by
      rw [get_game_over_conditions, htm]
      simp
    cases hfull : is_full b
    · rw [hgg, hfull] at ht
      simp at ht
    · rw [make_value_judgment, hgg, hfull]
      have : ((-1 : Int) == owner) = false := by
        rcases ho with rfl | rfl <;> rfl
      simp [this]
  · have hgg : get_game_over_conditions b = (true, tmv) := by
      rw [get_game_over_conditions, htm]
      simp
    rw [make_value_judgment, hgg]
    by_cases hv : tmv = owner
    · simp [hv]
    · simp only [Bool.not_true, Bool.false_eq_true, if_false]
      rw [if_neg (by simp [hv]), if_neg (by simp [hv])]

/-- Witness for C4 amended at the drawn board. -/
theorem c4_amended_witness :
    make_value_judgment 1 [[1, 1, 2], [2, 2, 1], [1, 1, 2]] =
      (if (three_match_exists [[1, 1, 2], [2, 2, 1], [1, 1, 2]]).1 = true ∧
          (three_match_exists [[1, 1, 2], [2, 2, 1], [1, 1, 2]]).2 = 1
       then 1 else -1) :=
  c4_amended_terminal_score [[1, 1, 2], [2, 2, 1], [1, 1, 2]] 1 (Or.inl rfl)
    (by decide)

/-- C10: an invalid placement, whether from out-of-range coordinates, a value
that is not a player mark, or a non-empty target cell, leaves every cell of
the board unchanged and reports false. -/
theorem c10_safe_set_value_atomic (b : BoardT) (r c v : Int)
    (h : ¬(0 ≤ r ∧ r < 3 ∧ 0 ≤ c ∧ c < 3) ∨ ¬(v = 1 ∨ v = 2) ∨
         is_cell_empty b r c = false) :
    safe_set_value b r c v = (b, false) := by
  rw [safe_set_value, if_neg]
  intro hv
  rw [is_set_value_valid, Bool.and_eq_true, Bool.and_eq_true] at hv
  obtain ⟨⟨h1, h2⟩, h3⟩ := hv
  rcases h with h | h | h
  · rw [is_cell_valid, Bool.and_eq_true, decide_eq_true_eq, decide_eq_true_eq] at h1
    exact h ⟨h1.1.2, h1.1.1, h1.2.2, h1.2.1⟩
  · rw [Bool.or_eq_true, beq_iff_eq, beq_iff_eq] at h2
    exact h h2
  · rw [h] at h3
    cases h3

/-- Witness for C10 with an illegal value on an empty board. -/
theorem c10_safe_set_value_atomic_witness :
    safe_set_value [[0, 0, 0], [0, 0, 0], [0, 0, 0]] 0 0 5 =
      ([[0, 0, 0], [0, 0, 0], [0, 0, 0]], false) :=
  c10_safe_set_value_atomic [[0, 0, 0], [0, 0, 0], [0, 0, 0]] 0 0 5
    (Or.inr (Or.inl (by decide)))

theorem flatMap_if_filter {α β : Type} (l : List α) (e : α → Bool) (f : α → β) :
    (l.flatMap fun j => if e j then [f j] else []) = (l.filter e).map f := by
  induction l with
  | nil => rfl
  | cons x xs ih =>
    by_cases h : e x <;> simp [List.flatMap_cons, List.filter_cons, h, ih]

theorem flatMap_congr_mem {α β : Type} {l : List α} {f g : α → List β}
    (h : ∀ a ∈ l, f a = g a) : l.flatMap f = l.flatMap g := by
  induction l with
  | nil => rfl
  | cons x xs ih =>
    simp only [List.flatMap_cons, h x (by simp),
      ih (fun a ha => h a (by simp [ha]))]

theorem safe_eq_set {b : BoardT} {i j nv : Int} (hij : is_cell_valid i j = true)
    (hnv : (nv == 1 || nv == 2) = true) (he : is_cell_empty b i j = true) :
    (safe_set_value b i j nv).1 = set_value b i j nv := by
  rw [safe_set_value, if_pos]
  rw [is_set_value_valid, hij, hnv, he]
  rfl

theorem which_value_is_next_cases (b : BoardT) :
    which_value_is_next b = 1 ∨ which_value_is_next b = 2 := by
  by_cases h : (to_list b).countP (fun v => v == 2) <
      (to_list b).countP (fun v => v == 1)
  · right
    simp [which_value_is_next, h]
  · left
    simp [which_value_is_next, h]

/-- C6: for every valid board the successor enumeration visits cells in
row-major order, emits exactly one successor per empty cell obtained by
placing the next mark there via a single-cell update, and its length is the
number of empty cells. -/
theorem c6_next_states_enumeration (b : BoardT) (hb : Valid b) :
    next_available_states b =
      ((List.range 3).flatMap fun i =>
        ((List.range 3).filter fun j =>
            is_cell_empty b (Int.ofNat i) (Int.ofNat j)).map
          fun j => set_value b (Int.ofNat i) (Int.ofNat j)
            (which_value_is_next b)) ∧
    (next_available_states b).length =
      (to_list b).countP (fun v => v == 0) := by
  have hrt : (board_init (encode b)).getD empty_board = b := by
    rw [board_init_encode b hb]
    rfl
  have hnvb : (which_value_is_next b == 1 || which_value_is_next b == 2) = true := by
    rcases which_value_is_next_cases b with h | h <;> simp [h]
  have heq : next_available_states b =
      ((List.range 3).flatMap fun i =>
        ((List.range 3).filter fun j =>
            is_cell_empty b (Int.ofNat i) (Int.ofNat j)).map
          fun j => set_value b (Int.ofNat i) (Int.ofNat j)
            (which_value_is_next b)) := by
    simp only [next_available_states]
    apply flatMap_congr_mem
    intro i hi
    rw [List.mem_range] at hi
    simp only [hrt]
    rw [flatMap_if_filter]
    apply List.map_congr_left
    intro j hj
    rw [List.mem_filter, List.mem_range] at hj
    refine safe_eq_set ?_ hnvb hj.2
    simp only [is_cell_valid, Bool.and_eq_true, decide_eq_true_eq]
    omega
  refine ⟨heq, ?_⟩
  rw [heq]
  rw [show List.range 3 = [0, 1, 2] from rfl]
  simp only [List.flatMap_cons, List.flatMap_nil, List.append_nil,
    List.length_append, List.length_map, ← List.countP_eq_length_filter]
  rw [to_list, show List.range 3 = [0, 1, 2] from rfl]
  simp only [List.flatMap_cons, List.flatMap_nil, List.append_nil,
    List.countP_append, List.countP_map]
  rfl

/-- Witness for C6 at a concrete board with four empty cells. -/
theorem c6_next_states_enumeration_witness :
    next_available_states [[1, 0, 2], [0, 1, 0], [2, 1, 0]] =
      ((List.range 3).flatMap fun i =>
        ((List.range 3).filter fun j =>
            is_cell_empty [[1, 0, 2], [0, 1, 0], [2, 1, 0]]
              (Int.ofNat i) (Int.ofNat j)).map
          fun j => set_value [[1, 0, 2], [0, 1, 0], [2, 1, 0]]
            (Int.ofNat i) (Int.ofNat j)
            (which_value_is_next [[1, 0, 2], [0, 1, 0], [2, 1, 0]])) ∧
    (next_available_states [[1, 0, 2], [0, 1, 0], [2, 1, 0]]).length =
      (to_list [[1, 0, 2], [0, 1, 0], [2, 1, 0]]).countP (fun v => v == 0) :=
  c6_next_states_enumeration [[1, 0, 2], [0, 1, 0], [2, 1, 0]] (by decide)

theorem line_match_generic (b : BoardT) (r1 c1 r2 c2 r3 c3 : Int) (d : Dir)
    (e1 : get_cell_index_adjacent r1 c1 d = some (r2, c2))
    (e2 : get_cell_index_adjacent r2 c2 d = some (r3, c3)) :
    is_three_match_in_line b r1 c1 d =
      some (line_wins b ((r1, c1), (r2, c2), (r3, c3)),
        if line_wins b ((r1, c1), (r2, c2), (r3, c3))
        then get_value b r1 c1 else -1) := by
  simp only [is_three_match_in_line, e1, e2, line_wins]
  by_cases h1 : get_value b r1 c1 = 0
  · simp [h1]
  · by_cases h2 : get_value b r1 c1 = get_value b r2 c2
    · by_cases h3 : get_value b r2 c2 = get_value b r3 c3
      · simp only [h2, h3] at h1
        simp [h1, h2, h3]
      · simp [h1, h2, h3]
    · simp [h1, h2]

/-- C9: the winner scan reports the first matching line in the fixed order
rows top to bottom, columns left to right, then the two diagonals; the
reported value is the mark of that line, and the scan is deterministic even
when several lines match simultaneously. -/
theorem c9_winner_first_line_in_order (b : BoardT) :
    three_match_exists b =
      (match claim_lines.find? (fun t => line_wins b t) with
       | some t => (true, get_value b t.1.1 t.1.2)
       | none => (false, -1)) := by
  have m1 := line_match_generic b 0 0 0 1 0 2 Dir.E rfl rfl
  have m2 := line_match_generic b 1 0 1 1 1 2 Dir.E rfl rfl
  have m3 := line_match_generic b 2 0 2 1 2 2 Dir.E rfl rfl
  have m4 := line_match_generic b 0 0 1 0 2 0 Dir.S rfl rfl
  have m5 := line_match_generic b 0 1 1 1 2 1 Dir.S rfl rfl
  have m6 := line_match_generic b 0 2 1 2 2 2 Dir.S rfl rfl
  have m7 := line_match_generic b 0 0 1 1 2 2 Dir.SE rfl rfl
  have m8 := line_match_generic b 2 0 1 1 0 2 Dir.NE rfl rfl
  simp only [three_match_exists, get_all_three_matches, line_list, claim_lines,
    List.foldr_cons, List.foldr_nil, m1, m2, m3, m4, m5, m6, m7, m8]
  cases hw1 : line_wins b ((0, 0), (0, 1), (0, 2))
  case true =>
    simp only [List.find?_cons, hw1]
    simp
  case false =>
  cases hw2 : line_wins b ((1, 0), (1, 1), (1, 2))
  case true =>
    simp only [List.find?_cons, hw1, hw2]
    simp
  case false =>
  cases hw3 : line_wins b ((2, 0), (2, 1), (2, 2))
  case true =>
    simp only [List.find?_cons, hw1, hw2, hw3]
    simp
  case false =>
  cases hw4 : line_wins b ((0, 0), (1, 0), (2, 0))
  case true =>
    simp only [List.find?_cons, hw1, hw2, hw3, hw4]
    simp
  case false =>
  cases hw5 : line_wins b ((0, 1), (1, 1), (2, 1))
  case true =>
    simp only [List.find?_cons, hw1, hw2, hw3, hw4, hw5]
    simp
  case false =>
  cases hw6 : line_wins b ((0, 2), (1, 2), (2, 2))
  case true =>
    simp only [List.find?_cons, hw1, hw2, hw3, hw4, hw5, hw6]
    simp
  case false =>
  cases hw7 : line_wins b ((0, 0), (1, 1), (2, 2))
  case true =>
    simp only [List.find?_cons, hw1, hw2, hw3, hw4, hw5, hw6, hw7]
    simp
  case false =>
  cases hw8 : line_wins b ((2, 0), (1, 1), (0, 2))
  case true =>
    simp only [List.find?_cons, hw1, hw2, hw3, hw4, hw5, hw6, hw7, hw8]
    simp
  case false =>
    simp only [List.find?_cons, hw1, hw2, hw3, hw4, hw5, hw6, hw7, hw8]
    simp

theorem foldl_max_le_init (xs : List Int) (a : Int) : a ≤ xs.foldl max a := by
  induction xs generalizing a with
  | nil => exact le_refl a
  | cons x xs ih => exact le_trans (le_max_left a x) (ih (max a x))

theorem foldl_max_le_mem (xs : List Int) (a x : Int) (hx : x ∈ xs) :
    x ≤ xs.foldl max a := by
  induction xs generalizing a with
  | nil => cases hx
  | cons y ys ih =>
    rcases List.mem_cons.mp hx with rfl | h
    · exact le_trans (le_max_right a x) (foldl_max_le_init ys (max a x))
    · exact ih (max a y) h

theorem foldl_max_mem (xs : List Int) (a : Int) :
    xs.foldl max a = a ∨ xs.foldl max a ∈ xs := by
  induction xs generalizing a with
  | nil => left; rfl
  | cons y ys ih =>
    rcases ih (max a y) with h | h
    · rcases le_total a y with hle | hle
      · right
        rw [List.foldl_cons, h, max_eq_right hle]
        exact List.mem_cons_self y ys
      · left
        rw [List.foldl_cons, h, max_eq_left hle]
    · right
      exact List.mem_cons_of_mem y h

theorem list_max_mem (l : List Int) (m : Int) (hm : list_max l = some m) :
    m ∈ l := by
  cases l with
  | nil => cases hm
  | cons x xs =>
    rw [list_max, Option.some_inj] at hm
    subst hm
    rcases foldl_max_mem xs x with h | h
    · rw [h]; exact List.mem_cons_self x xs
    · exact List.mem_cons_of_mem x h

theorem list_max_is_max (l : List Int) (x : Int) (hx : x ∈ l) (m : Int)
    (hm : list_max l = some m) : x ≤ m := by
  cases l with
  | nil => cases hx
  | cons y ys =>
    rw [list_max, Option.some_inj] at hm
    subst hm
    rcases List.mem_cons.mp hx with rfl | h
    · exact foldl_max_le_init ys x
    · exact foldl_max_le_mem ys y x h

theorem mvj_le_one (value : Int) (st : BoardT) :
    make_value_judgment value st ≤ 1 := by
  simp only [make_value_judgment]
  split_ifs <;> omega

/-- C3 counterexample: on a non-terminal board where the first player must
block an immediate threat, the section 4.3 one-ply score of the candidate
that ignores the threat is -1 while the blocking candidate scores 0, yet
select_move with tie-break outcome 1 falls back to the uniform random branch
and returns the -1-scored candidate. -/
theorem c3_counterexample :
    (get_game_over_conditions [[2, 2, 0], [1, 0, 0], [0, 1, 0]]).1 = false ∧
    set_value [[2, 2, 0], [1, 0, 0], [0, 1, 0]] 0 2 1 ∈
      next_available_states [[2, 2, 0], [1, 0, 0], [0, 1, 0]] ∧
    specScore 1 (set_value [[2, 2, 0], [1, 0, 0], [0, 1, 0]] 0 2 1) = 0 ∧
    set_value [[2, 2, 0], [1, 0, 0], [0, 1, 0]] 1 1 1 ∈
      next_available_states [[2, 2, 0], [1, 0, 0], [0, 1, 0]] ∧
    specScore 1 (set_value [[2, 2, 0], [1, 0, 0], [0, 1, 0]] 1 1 1) = -1 ∧
    select_move 1 [[2, 2, 0], [1, 0, 0], [0, 1, 0]] 1 =
      some (extract_move_transition [[2, 2, 0], [1, 0, 0], [0, 1, 0]]
        (set_value [[2, 2, 0], [1, 0, 0], [0, 1, 0]] 1 1 1)) ∧
    extract_move_transition [[2, 2, 0], [1, 0, 0], [0, 1, 0]]
      (set_value [[2, 2, 0], [1, 0, 0], [0, 1, 0]] 1 1 1) = (1, 1, 1) := by decide

/-- C3 amended: whenever some candidate successor has judgment 1 (an
immediate win for the mover), select_move returns the move to a candidate
with judgment 1, for every tie-break outcome; without such a candidate the
naive branch chooses uniformly among all candidates regardless of their
one-ply scores, so a -1-scored candidate can be returned even when a
0-scored one exists. -/
theorem c3_amended_select_move_winning (value : Int) (b : BoardT) (rand : Nat)
    (h : ∃ st ∈ next_available_states b, make_value_judgment value st = 1) :
    ∃ st ∈ next_available_states b, make_value_judgment value st = 1 ∧
      select_move value b rand = some (extract_move_transition b st) := by
  obtain ⟨st0, hst0, hj0⟩ := h
  have h1mem : (1 : Int) ∈ (next_available_states b).map
      (fun st => make_value_judgment value st) :=
    List.mem_map.mpr ⟨st0, hst0, hj0⟩
  obtain ⟨x, xs, hxl⟩ : ∃ x xs, (next_available_states b).map
      (fun st => make_value_judgment value st) = x :: xs := by
    rcases hl : (next_available_states b).map
        (fun st => make_value_judgment value st) with _ | ⟨x, xs⟩
    · rw [hl] at h1mem; cases h1mem
    · exact ⟨x, xs, rfl⟩
  have hmax : list_max ((next_available_states b).map
      (fun st => make_value_judgment value st)) = some (xs.foldl max x) := by
    rw [hxl]; rfl
  have hMmem := list_max_mem _ _ hmax
  have hM1 : xs.foldl max x = 1 := by
    have hle : (1 : Int) ≤ xs.foldl max x := list_max_is_max _ 1 h1mem _ hmax
    obtain ⟨st, _, heq⟩ := List.mem_map.mp hMmem
    have := mvj_le_one value st
    omega
  rw [hM1] at hmax
  have hidxlt : ((next_available_states b).map
      (fun st => make_value_judgment value st)).indexOf 1 <
      (next_available_states b).length := by
    have := List.indexOf_lt_length.mpr h1mem
    rwa [List.length_map] at this
  refine ⟨(next_available_states b).get
    ⟨((next_available_states b).map
        (fun st => make_value_judgment value st)).indexOf 1, hidxlt⟩,
    List.get_mem _ _ hidxlt, ?_, ?_⟩
  · have h1 : ((next_available_states b).map
        (fun st => make_value_judgment value st)).get?
        (((next_available_states b).map
          (fun st => make_value_judgment value st)).indexOf 1) = some 1 :=
      List.indexOf_get? h1mem
    rw [List.get?_map, List.get?_eq_get hidxlt, Option.map_some'] at h1
    exact Option.some_inj.mp h1
  · unfold select_move
    dsimp only
    rw [hmax]
    dsimp only
    rw [if_pos (by norm_num : (0 : Int) < 1), List.get?_eq_get hidxlt]

/-- Witness for C3 amended at a board with an immediate winning move. -/
theorem c3_amended_witness :
    ∃ st ∈ next_available_states [[1, 1, 0], [2, 2, 0], [0, 0, 0]],
      make_value_judgment 1 st = 1 ∧
      select_move 1 [[1, 1, 0], [2, 2, 0], [0, 0, 0]] 0 =
        some (extract_move_transition [[1, 1, 0], [2, 2, 0], [0, 0, 0]] st) :=
  c3_amended_select_move_winning 1 [[1, 1, 0], [2, 2, 0], [0, 0, 0]] 0 (by decide)
